import Mathlib

/-!
Shallow embedding of the OMR scanner recognition-and-scoring core
(src/backend/omr_utils.py, src/backend/mock_omr_utils.py, src/backend/models.py).

Machine reals of the source (OpenCV fill percentages, Python floats) are
modelled as exact rationals; Python dicts keyed by question strings are
modelled as association lists in insertion order; the external OpenCV
collaborators (image decode, adaptive threshold, contour finder) are
modelled as inputs to the pipeline: a decoded image carries its
preprocessed binary pixel map and the raw contour list.
-/

/-- Diagnostic block `processing_info` attached to results (models.py). -/
structure ProcessingInfo where
  total_bubbles_detected : Nat
  detection_threshold : ℚ
  image_processing : String
deriving DecidableEq

/-- A raw external contour: its area (`cv2.contourArea`) and bounding
rectangle (`cv2.boundingRect`), as consumed by `_detect_bubbles`. -/
structure Contour where
  area : ℚ
  x : Nat
  y : Nat
  w : Nat
  h : Nat
deriving DecidableEq

/-- The bubble record built in `_detect_bubbles` for a surviving contour. -/
structure Bubble where
  contour : Contour
  x : Nat
  y : Nat
  w : Nat
  h : Nat
  area : ℚ
  center : Nat × Nat
deriving DecidableEq

/-- Configuration attributes set in `OMRProcessor.__init__`. -/
structure OMRProcessor where
  questions_per_row : Nat
  total_questions : Nat
  bubble_threshold : ℚ
  min_contour_area : ℚ
  max_contour_area : ℚ
deriving DecidableEq

/-- The defaults from `OMRProcessor.__init__`: 5 options per question,
10 questions, fill threshold 0.65, contour area band 20..400. -/
def OMRProcessor.init : OMRProcessor := ⟨5, 10, 65/100, 20, 400⟩

/-- The `OMRResult` response record (models.py). -/
structure OMRResult where
  score : Nat
  total : Nat
  percentage : ℚ
  marked_answers : List (String × String)
  correct_answers : List (String × String)
  result : List (String × String)
  processing_info : ProcessingInfo
deriving DecidableEq

/-- Python `round(x, 2)`: two-decimal rounding, over exact rationals. -/
def round2 (q : ℚ) : ℚ := ((round (q * 100) : ℤ) : ℚ) / 100

/-- Python `marked_answers.get(question_num, "")` on a dict modelled as an
association list. -/
def lookupD (m : List (String × String)) (q : String) : String :=
  (List.lookup q m).getD ""

/-- Per-question status: the if/elif/else chain in `_evaluate_answers`. -/
def statusOf (marked_answer correct_answer : String) : String :=
  if marked_answer = "" then "not_attempted"
  else if marked_answer = correct_answer then "correct"
  else "incorrect"

/-- The scoring loop of `_evaluate_answers`: walks the answer key in order,
producing the running correct count and the per-question status details. -/
def evalLoop (marked_answers : List (String × String)) :
    List (String × String) → Nat × List (String × String)
  | [] => (0, [])
  | (q, a) :: rest =>
    let s := statusOf (lookupD marked_answers q) a
    let r := evalLoop marked_answers rest
    ((if s = "correct" then 1 else 0) + r.1, (q, s) :: r.2)

/-- `OMRProcessor._evaluate_answers` (omr_utils.py lines 222-269). -/
def OMRProcessor.evaluate_answers (self : OMRProcessor)
    (marked_answers answer_key : List (String × String)) : OMRResult :=
  let total_questions := answer_key.length
  let e := evalLoop marked_answers answer_key
  let percentage : ℚ :=
    if total_questions > 0 then (e.1 : ℚ) / (total_questions : ℚ) * 100 else 0
  let complete_marked_answers :=
    answer_key.map (fun p => (p.1, lookupD marked_answers p.1))
  OMRResult.mk e.1 total_questions (round2 percentage)
    complete_marked_answers answer_key e.2
    (ProcessingInfo.mk marked_answers.length self.bubble_threshold
      "adaptive_threshold")

/-- The fixed marked answers hard-coded in the mock processor
(mock_omr_utils.py lines 32-43). -/
def mock_marked_answers : List (String × String) :=
  [("1", "A"), ("2", "C"), ("3", "C"), ("4", "D"), ("5", "A"),
   ("6", ""), ("7", "B"), ("8", "D"), ("9", ""), ("10", "A")]

/-- The scoring loop inlined in the mock processor's `process_omr_sheet`
(mock_omr_utils.py lines 50-59), translated independently of `evalLoop`. -/
def mockLoop (marked_answers : List (String × String)) :
    List (String × String) → Nat × List (String × String)
  | [] => (0, [])
  | (question_num, correct_answer) :: rest =>
    let marked_answer := lookupD marked_answers question_num
    let status :=
      if marked_answer = "" then "not_attempted"
      else if marked_answer = correct_answer then "correct"
      else "incorrect"
    let r := mockLoop marked_answers rest
    ((if status = "correct" then 1 else 0) + r.1, (question_num, status) :: r.2)

/-- The mock processor's `process_omr_sheet` (mock_omr_utils.py). -/
def mock_process_omr_sheet (_image_path : String)
    (answer_key : List (String × String)) : OMRResult :=
  let marked_answers := mock_marked_answers
  let total_questions := answer_key.length
  let e := mockLoop marked_answers answer_key
  let percentage : ℚ :=
    if total_questions > 0 then (e.1 : ℚ) / (total_questions : ℚ) * 100 else 0
  OMRResult.mk e.1 total_questions (round2 percentage)
    (answer_key.map (fun p => (p.1, lookupD marked_answers p.1)))
    answer_key e.2
    (ProcessingInfo.mk (marked_answers.filter (fun p => p.2 ≠ "")).length
      (65/100) "mock_processing")

/-- The bubble record construction in `_detect_bubbles` (lines 120-128). -/
def mkBubble (c : Contour) : Bubble :=
  Bubble.mk c c.x c.y c.w c.h c.area (c.x + c.w / 2, c.y + c.h / 2)

/-- The contour acceptance test of `_detect_bubbles` (lines 113-119):
strict area band, then inclusive aspect-band on width/height. -/
def acceptContour (self : OMRProcessor) (c : Contour) : Bool :=
  (self.min_contour_area < c.area ∧ c.area < self.max_contour_area) ∧
    ((7/10 : ℚ) ≤ (c.w : ℚ) / (c.h : ℚ) ∧ (c.w : ℚ) / (c.h : ℚ) ≤ 13/10)

/-- The sort key of `_detect_bubbles` line 131: `(b['y'], b['x'])`. -/
def bubbleLeYX (a b : Bubble) : Bool := a.y < b.y ∨ (a.y = b.y ∧ a.x ≤ b.x)

/-- `OMRProcessor._detect_bubbles` (omr_utils.py lines 93-134), over the
contour list produced by the external contour finder. -/
def OMRProcessor.detect_bubbles (self : OMRProcessor)
    (contours : List Contour) : List Bubble :=
  ((contours.filter (acceptContour self)).map mkBubble).mergeSort bubbleLeYX

/-- The in-row sort of `_group_bubbles_by_rows`: by x, left to right. -/
def sortRowByX (row : List Bubble) : List Bubble :=
  row.mergeSort (fun a b => a.x ≤ b.x)

/-- The accumulation loop of `_group_bubbles_by_rows` (lines 202-218):
`current_row`/`current_y`/`rows` state threaded explicitly. -/
def groupLoop : List Bubble → List Bubble → Int → List (List Bubble) →
    List (List Bubble)
  | [], current_row, _, rows =>
    if current_row.isEmpty then rows else rows ++ [sortRowByX current_row]
  | b :: rest, current_row, current_y, rows =>
    if |(b.y : Int) - current_y| < 30 then
      groupLoop rest (current_row ++ [b]) current_y rows
    else
      groupLoop rest [b] (b.y : Int)
        (if current_row.isEmpty then rows else rows ++ [sortRowByX current_row])

/-- `OMRProcessor._group_bubbles_by_rows` (omr_utils.py lines 185-220). -/
def OMRProcessor.group_bubbles_by_rows (_self : OMRProcessor)
    (bubbles : List Bubble) : List (List Bubble) :=
  match bubbles with
  | [] => []
  | b :: rest => groupLoop rest [b] (b.y : Int) []

/-- Fill percentage of one bubble's bounding-box region in the binary image:
count of white (255) pixels over the region size, 0 for an empty region
(`_analyze_bubbles` lines 160-167). -/
def fill_percentage (image : Nat → Nat → Nat) (b : Bubble) : ℚ :=
  let total_pixels := b.w * b.h
  if total_pixels = 0 then 0
  else
    (((List.range b.h).map (fun i =>
        ((List.range b.w).filter (fun j => image (b.y + i) (b.x + j) = 255)).length)).sum : ℚ)
      / (total_pixels : ℚ)

/-- Python `max` over a nonempty list (0 on the empty list, unreachable in
the source because the guarded row is nonempty). -/
def listMax : List ℚ → ℚ
  | [] => 0
  | x :: xs => xs.foldl max x

/-- The per-row selection of `_analyze_bubbles` (lines 158-181): score every
bubble, take the maximum fill; above threshold emit `chr(ord('A') + i)` at
the first index attaining the maximum, else no answer. -/
def markOfRow (self : OMRProcessor) (image : Nat → Nat → Nat)
    (row_bubbles : List Bubble) : Option String :=
  let bubble_scores := row_bubbles.map (fill_percentage image)
  let max_fill := listMax bubble_scores
  if max_fill > self.bubble_threshold then
    some (String.singleton
      (Char.ofNat (65 + bubble_scores.findIdx (fun s => s = max_fill))))
  else none

/-- The enumeration loop of `_analyze_bubbles` (lines 152-181): 1-based
question numbering over the grouped rows, skipping rows whose bubble count
differs from `questions_per_row`. -/
def analyzeAux (self : OMRProcessor) (image : Nat → Nat → Nat) :
    List (List Bubble) → Nat → List (String × String)
  | [], _ => []
  | row_bubbles :: rest, question_num =>
    if row_bubbles.length ≠ self.questions_per_row then
      analyzeAux self image rest (question_num + 1)
    else
      match markOfRow self image row_bubbles with
      | some marked_letter =>
        (Nat.repr question_num, marked_letter) ::
          analyzeAux self image rest (question_num + 1)
      | none => analyzeAux self image rest (question_num + 1)

/-- `OMRProcessor._analyze_bubbles` (omr_utils.py lines 136-183). -/
def OMRProcessor.analyze_bubbles (self : OMRProcessor)
    (image : Nat → Nat → Nat) (bubbles : List Bubble) :
    List (String × String) :=
  analyzeAux self image (self.group_bubbles_by_rows bubbles) 1

/-- A successfully decoded input image, as the pipeline consumes it: the
preprocessed binary pixel map (`_preprocess_image` output) and the external
contour finder's output on it. -/
structure LoadedImage where
  image : Nat → Nat → Nat
  contours : List Contour

/-- `OMRProcessor.process_omr_sheet` (omr_utils.py lines 32-67): `none`
models `cv2.imread` returning no decodable image, which raises before any
further stage; otherwise the four stages run and produce a result. -/
def OMRProcessor.process_omr_sheet (self : OMRProcessor)
    (loaded : Option LoadedImage) (answer_key : List (String × String)) :
    Except String OMRResult :=
  match loaded with
  | none => Except.error "Could not load image"
  | some li =>
    let bubbles := self.detect_bubbles li.contours
    let marked_answers := self.analyze_bubbles li.image bubbles
    Except.ok (self.evaluate_answers marked_answers answer_key)

/-- Spec §4.3, the walk: "accumulating bubbles into the current row while
each bubble's vertical coordinate differs from the row's reference vertical
coordinate by less than a tolerance (default 30 pixel units); when a bubble
exceeds the tolerance, close the current row (sorted left-to-right by
horizontal coordinate) and start a new row using the new bubble's vertical
coordinate as the new reference". Structural recursion, no accumulation of
closed rows: the comparison target for the source's `groupLoop`. -/
def specRowWalk (ref : Int) (acc : List Bubble) :
    List Bubble → List (List Bubble)
  | [] => [sortRowByX acc]
  | b :: rest =>
    if |(b.y : Int) - ref| < 30 then specRowWalk ref (acc ++ [b]) rest
    else sortRowByX acc :: specRowWalk (b.y : Int) [b] rest

/-- Spec §4.3 sweep over a bubble sequence: the first bubble's vertical
coordinate seeds the reference, then `specRowWalk` walks the rest. -/
def specRowSweep : List Bubble → List (List Bubble)
  | [] => []
  | b :: rest => specRowWalk (b.y : Int) [b] rest

lemma evalLoop_snd_keys (m key : List (String × String)) :
    (evalLoop m key).2.map Prod.fst = key.map Prod.fst := by
  induction key with
  | nil => rfl
  | cons p rest ih => cases p; simp [evalLoop, ih]

lemma evalLoop_lookup (m : List (String × String)) (key : List (String × String)) :
    ∀ q a, (key.map Prod.fst).Nodup → (q, a) ∈ key →
      List.lookup q (evalLoop m key).2 = some (statusOf (lookupD m q) a) := by
  induction key with
  | nil => intro q a _ h; simp at h
  | cons p rest ih =>
    rcases p with ⟨q', a'⟩
    intro q a hnd hmem
    simp only [List.map_cons, List.nodup_cons] at hnd
    rcases List.mem_cons.mp hmem with heq | hrest
    · injection heq with h1 h2
      subst h1; subst h2
      simp [evalLoop]
    · have hq : q ≠ q' := by
        intro hcontra
        subst hcontra
        exact hnd.1 (List.mem_map_of_mem Prod.fst hrest)
      have hb : (q == q') = false := by simpa using hq
      simp only [evalLoop, List.lookup_cons, hb]
      exact ih q a hnd.2 hrest

lemma evalLoop_score_count (m key : List (String × String)) :
    (evalLoop m key).1 =
      ((evalLoop m key).2.filter (fun p => p.2 = "correct")).length := by
  induction key with
  | nil => rfl
  | cons p rest ih =>
    rcases p with ⟨q, a⟩
    by_cases h : statusOf (lookupD m q) a = "correct" <;>
      simp [evalLoop, h, ih] <;> omega

lemma evalLoop_score_le (m key : List (String × String)) :
    (evalLoop m key).1 ≤ key.length := by
  induction key with
  | nil => exact Nat.le_refl 0
  | cons p rest ih =>
    rcases p with ⟨q, a⟩
    simp only [evalLoop, List.length_cons]
    split <;> omega

lemma evalLoop_status_mem (m key : List (String × String)) :
    ∀ p ∈ (evalLoop m key).2,
      p.2 = "correct" ∨ p.2 = "incorrect" ∨ p.2 = "not_attempted" := by
  induction key with
  | nil => intro p h; simp [evalLoop] at h
  | cons hd rest ih =>
    rcases hd with ⟨q, a⟩
    intro p hp
    simp only [evalLoop, List.mem_cons] at hp
    rcases hp with rfl | hp
    · simp only [statusOf]
      split_ifs <;> simp
    · exact ih p hp

lemma round2_nonneg {q : ℚ} (h : 0 ≤ q) : 0 ≤ round2 q := by
  unfold round2
  have h2 : (0 : ℤ) ≤ round (q * 100) := by
    rw [round_eq]
    refine Int.le_floor.mpr ?_
    push_cast
    linarith
  have : (0 : ℚ) ≤ ((round (q * 100) : ℤ) : ℚ) := by exact_mod_cast h2
  linarith

lemma round2_le_hundred {q : ℚ} (h : q ≤ 100) : round2 q ≤ 100 := by
  unfold round2
  have h2 : round (q * 100) ≤ 10000 := by
    rw [round_eq]
    have hfl : (⌊q * 100 + 1 / 2⌋ : ℚ) ≤ q * 100 + 1 / 2 := Int.floor_le _
    have hlt : (⌊q * 100 + 1 / 2⌋ : ℚ) < 10001 := by linarith
    have : ⌊q * 100 + 1 / 2⌋ < (10001 : ℤ) := by exact_mod_cast hlt
    omega
  have : ((round (q * 100) : ℤ) : ℚ) ≤ 10000 := by exact_mod_cast h2
  linarith

/-- Claim C1, per-question status contract and score rule of
`_evaluate_answers`: not_attempted exactly on a missing or empty mark,
correct exactly on a present mark equal to the key letter, incorrect
otherwise; the score counts the correct statuses. -/
def statusSpec (self : OMRProcessor)
    (marked_answers answer_key : List (String × String)) (q a : String) : Prop :=
  let r := self.evaluate_answers marked_answers answer_key
  (List.lookup q r.result = some "not_attempted" ↔ lookupD marked_answers q = "") ∧
  (List.lookup q r.result = some "correct" ↔
    (lookupD marked_answers q ≠ "" ∧ lookupD marked_answers q = a)) ∧
  (List.lookup q r.result = some "incorrect" ↔
    (lookupD marked_answers q ≠ "" ∧ lookupD marked_answers q ≠ a)) ∧
  r.score = (r.result.filter (fun p => p.2 = "correct")).length

/-- C1. Evaluator status and score rule: for every answer key (distinct
question identifiers, as in a Python dict) and every marked-answers mapping,
each key question gets status not_attempted exactly when its marked entry is
missing or empty, correct exactly when the marked letter equals the key
letter, incorrect otherwise; the score equals the number of correct
statuses. -/
theorem evaluator_status_score_C1 (self : OMRProcessor)
    (marked_answers answer_key : List (String × String)) (q a : String)
    (hnd : (answer_key.map Prod.fst).Nodup) (hmem : (q, a) ∈ answer_key) :
    statusSpec self marked_answers answer_key q a := by
  have hl : List.lookup q (self.evaluate_answers marked_answers answer_key).result
      = some (statusOf (lookupD marked_answers q) a) := by
    simp only [OMRProcessor.evaluate_answers]
    exact evalLoop_lookup marked_answers answer_key q a hnd hmem
  refine ⟨?_, ?_, ?_, ?_⟩
  · rw [hl, Option.some.injEq]
    unfold statusOf
    split_ifs with h1 h2 <;> simp_all
  · rw [hl, Option.some.injEq]
    unfold statusOf
    split_ifs with h1 h2 <;> simp_all
  · rw [hl, Option.some.injEq]
    unfold statusOf
    split_ifs with h1 h2 <;> simp_all
  · simp only [OMRProcessor.evaluate_answers]
    exact evalLoop_score_count marked_answers answer_key

/-- Witness for C1 on the spec's end-to-end scenario: key
1↦A, 2↦B, 3↦C against marks 1↦A, 2↦C, 3↦"" at question 2. -/
theorem evaluator_status_score_C1_witness :
    (([("1", "A"), ("2", "B"), ("3", "C")].map
        (fun p : String × String => p.1)).Nodup ∧
      ("2", "B") ∈ [("1", "A"), ("2", "B"), ("3", "C")]) ∧
    statusSpec OMRProcessor.init [("1", "A"), ("2", "C"), ("3", "")]
      [("1", "A"), ("2", "B"), ("3", "C")] "2" "B" :=
  ⟨⟨by decide, by decide⟩,
    evaluator_status_score_C1 OMRProcessor.init _ _ "2" "B" (by decide) (by decide)⟩

/-- C2. Percentage formula and bounds: with a non-empty answer key the
percentage is `round2 (score / total * 100)` and lies in [0, 100]; with the
empty key (total = 0) the percentage is exactly 0. -/
theorem evaluator_percentage_C2 (self : OMRProcessor)
    (marked_answers answer_key : List (String × String))
    (h : 0 < answer_key.length) :
    ((self.evaluate_answers marked_answers answer_key).percentage =
        round2 (((self.evaluate_answers marked_answers answer_key).score : ℚ) /
          ((self.evaluate_answers marked_answers answer_key).total : ℚ) * 100) ∧
      0 ≤ (self.evaluate_answers marked_answers answer_key).percentage ∧
      (self.evaluate_answers marked_answers answer_key).percentage ≤ 100) ∧
    (self.evaluate_answers marked_answers []).percentage = 0 := by
  have hn : (0 : ℚ) < (answer_key.length : ℚ) := by exact_mod_cast h
  have hraw0 : (0 : ℚ) ≤
      ((evalLoop marked_answers answer_key).1 : ℚ) / (answer_key.length : ℚ) * 100 := by
    positivity
  have hraw1 :
      ((evalLoop marked_answers answer_key).1 : ℚ) / (answer_key.length : ℚ) * 100 ≤ 100 := by
    have hle : ((evalLoop marked_answers answer_key).1 : ℚ) ≤ (answer_key.length : ℚ) := by
      exact_mod_cast evalLoop_score_le marked_answers answer_key
    have hdiv : ((evalLoop marked_answers answer_key).1 : ℚ) / (answer_key.length : ℚ) ≤ 1 :=
      (div_le_one hn).mpr hle
    linarith
  refine ⟨⟨?_, ?_, ?_⟩, ?_⟩
  · simp [OMRProcessor.evaluate_answers, h]
  · simp only [OMRProcessor.evaluate_answers, if_pos h]
    exact round2_nonneg hraw0
  · simp only [OMRProcessor.evaluate_answers, if_pos h]
    exact round2_le_hundred hraw1
  · simp [OMRProcessor.evaluate_answers, round2]

/-- Witness for C2 on the spec's end-to-end scenario (score 1 of 3,
percentage 33.33). -/
theorem evaluator_percentage_C2_witness :
    0 < [("1", "A"), ("2", "B"), ("3", "C")].length ∧
    ((OMRProcessor.init.evaluate_answers [("1", "A"), ("2", "C"), ("3", "")]
          [("1", "A"), ("2", "B"), ("3", "C")]).percentage =
        round2 (((OMRProcessor.init.evaluate_answers [("1", "A"), ("2", "C"), ("3", "")]
            [("1", "A"), ("2", "B"), ("3", "C")]).score : ℚ) /
          ((OMRProcessor.init.evaluate_answers [("1", "A"), ("2", "C"), ("3", "")]
            [("1", "A"), ("2", "B"), ("3", "C")]).total : ℚ) * 100) ∧
      0 ≤ (OMRProcessor.init.evaluate_answers [("1", "A"), ("2", "C"), ("3", "")]
          [("1", "A"), ("2", "B"), ("3", "C")]).percentage ∧
      (OMRProcessor.init.evaluate_answers [("1", "A"), ("2", "C"), ("3", "")]
          [("1", "A"), ("2", "B"), ("3", "C")]).percentage ≤ 100) ∧
    (OMRProcessor.init.evaluate_answers [("1", "A"), ("2", "C"), ("3", "")]
        ([] : List (String × String))).percentage = 0 :=
  ⟨by decide,
    evaluator_percentage_C2 OMRProcessor.init [("1", "A"), ("2", "C"), ("3", "")]
      [("1", "A"), ("2", "B"), ("3", "C")] (by decide)⟩

lemma mockLoop_eq_evalLoop (m key : List (String × String)) :
    mockLoop m key = evalLoop m key := by
  induction key with
  | nil => rfl
  | cons p rest ih => cases p; simp [mockLoop, evalLoop, statusOf, ih]

/-- C9. Mock and real processors satisfy the same scoring contract: on any
answer key, the mock processor's inlined scoring of its fixed marked
answers agrees with `_evaluate_answers` applied to those same marked
answers, on score, total, percentage, marked_answers, correct_answers and
result. -/
theorem mock_real_contract_C9 (image_path : String)
    (answer_key : List (String × String)) :
    (mock_process_omr_sheet image_path answer_key).score =
      (OMRProcessor.init.evaluate_answers mock_marked_answers answer_key).score ∧
    (mock_process_omr_sheet image_path answer_key).total =
      (OMRProcessor.init.evaluate_answers mock_marked_answers answer_key).total ∧
    (mock_process_omr_sheet image_path answer_key).percentage =
      (OMRProcessor.init.evaluate_answers mock_marked_answers answer_key).percentage ∧
    (mock_process_omr_sheet image_path answer_key).marked_answers =
      (OMRProcessor.init.evaluate_answers mock_marked_answers answer_key).marked_answers ∧
    (mock_process_omr_sheet image_path answer_key).correct_answers =
      (OMRProcessor.init.evaluate_answers mock_marked_answers answer_key).correct_answers ∧
    (mock_process_omr_sheet image_path answer_key).result =
      (OMRProcessor.init.evaluate_answers mock_marked_answers answer_key).result := by
  simp [mock_process_omr_sheet, OMRProcessor.evaluate_answers, mockLoop_eq_evalLoop]

/-- Claim C8: the result's marked-answers and status maps list exactly the
key's question identifiers (once each), marked answers default to the empty
string for undetected questions, and statuses range over correct /
incorrect / not_attempted only — never "invalid". -/
def resultInvariant (self : OMRProcessor)
    (marked_answers answer_key : List (String × String)) : Prop :=
  let r := self.evaluate_answers marked_answers answer_key
  r.marked_answers.map Prod.fst = answer_key.map Prod.fst ∧
  r.result.map Prod.fst = answer_key.map Prod.fst ∧
  (r.marked_answers.map Prod.fst).Nodup ∧
  (r.result.map Prod.fst).Nodup ∧
  (∀ p ∈ r.marked_answers, p.2 = lookupD marked_answers p.1) ∧
  (∀ q, q ∈ answer_key.map Prod.fst → List.lookup q marked_answers = none →
    (q, "") ∈ r.marked_answers) ∧
  (∀ p ∈ r.result, p.2 = "correct" ∨ p.2 = "incorrect" ∨ p.2 = "not_attempted") ∧
  (∀ p ∈ r.result, p.2 ≠ "invalid")

/-- C8. Result completeness and status vocabulary invariant of
`_evaluate_answers`, for every answer key with distinct question
identifiers (a Python dict) and every marked-answers mapping. -/
theorem result_completeness_C8 (self : OMRProcessor)
    (marked_answers answer_key : List (String × String))
    (hnd : (answer_key.map Prod.fst).Nodup) :
    resultInvariant self marked_answers answer_key := by
  have hmk : (self.evaluate_answers marked_answers answer_key).marked_answers =
      answer_key.map (fun p => (p.1, lookupD marked_answers p.1)) := rfl
  have hres : (self.evaluate_answers marked_answers answer_key).result =
      (evalLoop marked_answers answer_key).2 := rfl
  have h1 : (self.evaluate_answers marked_answers answer_key).marked_answers.map Prod.fst
      = answer_key.map Prod.fst := by
    rw [hmk, List.map_map]
    rfl
  have h2 : (self.evaluate_answers marked_answers answer_key).result.map Prod.fst
      = answer_key.map Prod.fst := by
    rw [hres]; exact evalLoop_snd_keys marked_answers answer_key
  refine ⟨h1, h2, by rw [h1]; exact hnd, by rw [h2]; exact hnd, ?_, ?_, ?_, ?_⟩
  · intro p hp
    rw [hmk] at hp
    rcases List.mem_map.mp hp with ⟨p0, _, rfl⟩
    rfl
  · intro q hq hnone
    rcases List.mem_map.mp hq with ⟨p0, hp0, rfl⟩
    rw [hmk]
    have : (p0.1, lookupD marked_answers p0.1) ∈
        answer_key.map (fun p => (p.1, lookupD marked_answers p.1)) :=
      List.mem_map_of_mem _ hp0
    simpa [lookupD, hnone] using this
  · intro p hp
    rw [hres] at hp
    exact evalLoop_status_mem marked_answers answer_key p hp
  · intro p hp
    rw [hres] at hp
    rcases evalLoop_status_mem marked_answers answer_key p hp with h | h | h <;>
      simp [h]

/-- Witness for C8 on the spec's end-to-end scenario. -/
theorem result_completeness_C8_witness :
    ([("1", "A"), ("2", "B"), ("3", "C")].map
        (fun p : String × String => p.1)).Nodup ∧
    resultInvariant OMRProcessor.init [("1", "A"), ("2", "C"), ("3", "")]
      [("1", "A"), ("2", "B"), ("3", "C")] :=
  ⟨by decide,
    result_completeness_C8 OMRProcessor.init [("1", "A"), ("2", "C"), ("3", "")]
      [("1", "A"), ("2", "B"), ("3", "C")] (by decide)⟩

lemma groupLoop_eq_specRowWalk (pending : List Bubble) :
    ∀ (acc : List Bubble) (ref : Int) (rows : List (List Bubble)), acc ≠ [] →
      groupLoop pending acc ref rows = rows ++ specRowWalk ref acc pending := by
  induction pending with
  | nil =>
    intro acc ref rows hacc
    simp [groupLoop, specRowWalk, hacc]
  | cons b rest ih =>
    intro acc ref rows hacc
    by_cases htol : |(b.y : Int) - ref| < 30
    · simp only [groupLoop, specRowWalk, if_pos htol]
      exact ih (acc ++ [b]) ref rows (by simp)
    · simp only [groupLoop, specRowWalk, if_neg htol]
      have hne : acc.isEmpty = false := by simp [hacc]
      rw [hne]
      simp only [Bool.false_eq_true, if_false]
      rw [ih [b] (b.y : Int) (rows ++ [sortRowByX acc]) (by simp)]
      simp

lemma group_eq_specRowSweep (self : OMRProcessor) (bubbles : List Bubble) :
    self.group_bubbles_by_rows bubbles = specRowSweep bubbles := by
  cases bubbles with
  | nil => rfl
  | cons b rest =>
    simp only [OMRProcessor.group_bubbles_by_rows, specRowSweep]
    rw [groupLoop_eq_specRowWalk rest [b] (b.y : Int) [] (by simp)]
    simp

lemma bubbleLeYX_trans : ∀ a b c : Bubble,
    bubbleLeYX a b → bubbleLeYX b c → bubbleLeYX a c := by
  intro a b c hab hbc
  simp only [bubbleLeYX, decide_eq_true_eq] at *
  omega

lemma bubbleLeYX_total : ∀ a b : Bubble, bubbleLeYX a b || bubbleLeYX b a := by
  intro a b
  simp only [bubbleLeYX, Bool.or_eq_true, decide_eq_true_eq]
  omega

/-- C5. Row grouper sweep: the source's accumulation loop over the
detector-sorted bubbles is exactly the spec's single sweep (tolerance 30,
reference fixed at each row's first member, rows closed sorted by x), and
the detector hands the grouper its bubbles sorted by vertical position. -/
theorem row_grouper_C5 (self : OMRProcessor) (bubbles : List Bubble)
    (contours : List Contour) :
    self.group_bubbles_by_rows bubbles = specRowSweep bubbles ∧
    (self.detect_bubbles contours).Pairwise (fun a b => a.y ≤ b.y) := by
  refine ⟨group_eq_specRowSweep self bubbles, ?_⟩
  have hs : (self.detect_bubbles contours).Pairwise (fun a b => bubbleLeYX a b) :=
    List.sorted_mergeSort bubbleLeYX_trans bubbleLeYX_total
      ((contours.filter (acceptContour self)).map mkBubble)
  refine hs.imp ?_
  intro a b hab
  simp only [bubbleLeYX, decide_eq_true_eq] at hab
  omega

lemma specRowWalk_flatten_perm (pending : List Bubble) :
    ∀ (ref : Int) (acc : List Bubble),
      (specRowWalk ref acc pending).flatten.Perm (acc ++ pending) := by
  induction pending with
  | nil =>
    intro ref acc
    simpa [specRowWalk] using (List.mergeSort_perm acc (fun a b => a.x ≤ b.x))
  | cons b rest ih =>
    intro ref acc
    by_cases htol : |(b.y : Int) - ref| < 30
    · simp only [specRowWalk, if_pos htol]
      have := ih ref (acc ++ [b])
      simpa using this
    · simp only [specRowWalk, if_neg htol, List.flatten_cons]
      have h1 : (sortRowByX acc).Perm acc :=
        List.mergeSort_perm acc (fun a b => a.x ≤ b.x)
      have h2 := ih (b.y : Int) [b]
      have h3 : (sortRowByX acc ++ (specRowWalk (b.y : Int) [b] rest).flatten).Perm
          (acc ++ ([b] ++ rest)) := List.Perm.append h1 h2
      simpa using h3

lemma specRowWalk_rows_ne_nil (pending : List Bubble) :
    ∀ (ref : Int) (acc : List Bubble), acc ≠ [] →
      ∀ row ∈ specRowWalk ref acc pending, row ≠ [] := by
  induction pending with
  | nil =>
    intro ref acc hacc row hrow
    simp only [specRowWalk, List.mem_singleton] at hrow
    subst hrow
    intro hrow0
    have hlen := congrArg List.length hrow0
    simp only [sortRowByX, List.length_mergeSort, List.length_nil] at hlen
    exact hacc (List.length_eq_zero.mp hlen)
  | cons b rest ih =>
    intro ref acc hacc row hrow
    by_cases htol : |(b.y : Int) - ref| < 30
    · rw [specRowWalk, if_pos htol] at hrow
      exact ih ref (acc ++ [b]) (by simp) row hrow
    · rw [specRowWalk, if_neg htol] at hrow
      rcases List.mem_cons.mp hrow with rfl | hmem
      · intro hrow0
        have hlen := congrArg List.length hrow0
        simp only [sortRowByX, List.length_mergeSort, List.length_nil] at hlen
        exact hacc (List.length_eq_zero.mp hlen)
      · exact ih (b.y : Int) [b] (by simp) row hmem

/-- C10. Row grouping is a partition: on a non-empty bubble list the
grouper's rows concatenate to a permutation of the input (no bubble dropped
or duplicated) and no emitted row is empty. -/
theorem row_partition_C10 (self : OMRProcessor) (bubbles : List Bubble)
    (h : bubbles ≠ []) :
    (self.group_bubbles_by_rows bubbles).flatten.Perm bubbles ∧
    ∀ row ∈ self.group_bubbles_by_rows bubbles, row ≠ [] := by
  rw [group_eq_specRowSweep]
  cases bubbles with
  | nil => exact absurd rfl h
  | cons b rest =>
    constructor
    · simpa [specRowSweep] using specRowWalk_flatten_perm rest (b.y : Int) [b]
    · simpa [specRowSweep] using
        specRowWalk_rows_ne_nil rest (b.y : Int) [b] (by simp)

/-- Witness for C10 at a concrete two-bubble input (two distant rows). -/
theorem row_partition_C10_witness :
    ([Bubble.mk (Contour.mk 30 0 0 10 10) 0 0 10 10 30 (5, 5),
      Bubble.mk (Contour.mk 30 0 50 10 10) 0 50 10 10 30 (5, 55)] ≠
        ([] : List Bubble)) ∧
    ((OMRProcessor.init.group_bubbles_by_rows
        [Bubble.mk (Contour.mk 30 0 0 10 10) 0 0 10 10 30 (5, 5),
         Bubble.mk (Contour.mk 30 0 50 10 10) 0 50 10 10 30 (5, 55)]).flatten.Perm
      [Bubble.mk (Contour.mk 30 0 0 10 10) 0 0 10 10 30 (5, 5),
       Bubble.mk (Contour.mk 30 0 50 10 10) 0 50 10 10 30 (5, 55)] ∧
    ∀ row ∈ OMRProcessor.init.group_bubbles_by_rows
        [Bubble.mk (Contour.mk 30 0 0 10 10) 0 0 10 10 30 (5, 5),
         Bubble.mk (Contour.mk 30 0 50 10 10) 0 50 10 10 30 (5, 55)],
      row ≠ []) :=
  ⟨by decide,
    row_partition_C10 OMRProcessor.init
      [Bubble.mk (Contour.mk 30 0 0 10 10) 0 0 10 10 30 (5, 5),
       Bubble.mk (Contour.mk 30 0 50 10 10) 0 50 10 10 30 (5, 55)] (by decide)⟩

/-- Counterexample to C4 as stated: a contour with area exactly 20 (the
lower limit, inside the claim's inclusive band [20, 400]) and square
bounding box (aspect ratio 1) produces no Bubble, because the source
compares `min_contour_area < area < max_contour_area` strictly. -/
theorem bubble_filter_C4_counterexample :
    OMRProcessor.init.min_contour_area ≤ (Contour.mk 20 0 0 10 10).area ∧
    (Contour.mk 20 0 0 10 10).area ≤ OMRProcessor.init.max_contour_area ∧
    (7/10 : ℚ) ≤ ((Contour.mk 20 0 0 10 10).w : ℚ) / ((Contour.mk 20 0 0 10 10).h : ℚ) ∧
    ((Contour.mk 20 0 0 10 10).w : ℚ) / ((Contour.mk 20 0 0 10 10).h : ℚ) ≤ 13/10 ∧
    OMRProcessor.init.detect_bubbles [Contour.mk 20 0 0 10 10] = [] := by
  refine ⟨?_, ?_, ?_, ?_, ?_⟩
  · norm_num [OMRProcessor.init]
  · norm_num [OMRProcessor.init]
  · norm_num
  · norm_num
  · have hacc : acceptContour OMRProcessor.init (Contour.mk 20 0 0 10 10) = false := by
      simp only [acceptContour, decide_eq_false_iff_not]
      norm_num [OMRProcessor.init]
    simp [OMRProcessor.detect_bubbles, List.filter, hacc]

/-- C4 (amended). A detected contour becomes a Bubble iff its area lies
strictly inside the configured band (min_area, max_area) — exclusive
endpoints, defaults 20 and 400 — and its bounding-box aspect ratio
width/height lies inside the inclusive band [0.7, 1.3]. -/
theorem bubble_filter_C4 (self : OMRProcessor) (contours : List Contour)
    (b : Bubble) :
    b ∈ self.detect_bubbles contours ↔
      ∃ c ∈ contours,
        (self.min_contour_area < c.area ∧ c.area < self.max_contour_area) ∧
        ((7/10 : ℚ) ≤ (c.w : ℚ) / (c.h : ℚ) ∧ (c.w : ℚ) / (c.h : ℚ) ≤ 13/10) ∧
        b = mkBubble c := by
  simp only [OMRProcessor.detect_bubbles, List.mem_mergeSort, List.mem_map,
    List.mem_filter, acceptContour, decide_eq_true_eq]
  constructor
  · rintro ⟨c, ⟨hc, hacc⟩, rfl⟩
    exact ⟨c, hc, hacc.1, hacc.2, rfl⟩
  · rintro ⟨c, hc, h1, h2, rfl⟩
    exact ⟨c, ⟨hc, h1, h2⟩, rfl⟩

lemma foldl_max_init (l : List ℚ) : ∀ a : ℚ, a ≤ l.foldl max a := by
  induction l with
  | nil => intro a; exact le_refl a
  | cons y ys ih => intro a; exact le_trans (le_max_left a y) (ih (max a y))

lemma le_foldl_max (l : List ℚ) : ∀ (a x : ℚ), x ∈ l → x ≤ l.foldl max a := by
  induction l with
  | nil => intro a x h; simp at h
  | cons y ys ih =>
    intro a x h
    rcases List.mem_cons.mp h with rfl | h2
    · exact le_trans (le_max_right a x) (foldl_max_init ys (max a x))
    · exact ih (max a y) x h2

lemma foldl_max_choice (l : List ℚ) : ∀ a : ℚ, l.foldl max a = a ∨ l.foldl max a ∈ l := by
  induction l with
  | nil => intro a; left; rfl
  | cons y ys ih =>
    intro a
    simp only [List.foldl_cons]
    rcases ih (max a y) with h | h
    · rcases max_choice a y with h2 | h2
      · left; rw [h, h2]
      · right; rw [h, h2]; exact List.mem_cons_self y ys
    · right; exact List.mem_cons_of_mem y h

lemma le_listMax (l : List ℚ) : ∀ x ∈ l, x ≤ listMax l := by
  cases l with
  | nil => intro x h; simp at h
  | cons y ys =>
    intro x h
    rcases List.mem_cons.mp h with rfl | h2
    · exact foldl_max_init ys x
    · exact le_foldl_max ys y x h2

lemma listMax_mem {l : List ℚ} (h : l ≠ []) : listMax l ∈ l := by
  cases l with
  | nil => exact absurd rfl h
  | cons y ys =>
    show ys.foldl max y ∈ y :: ys
    rcases foldl_max_choice ys y with h2 | h2
    · rw [h2]; exact List.mem_cons_self y ys
    · exact List.mem_cons_of_mem y h2

/-- Claim C3: on a valid row, the extractor emits the letter (A, B, C, …
assigned left to right) of the left-most bubble attaining the row's maximum
fill when that maximum exceeds the threshold, and no entry otherwise. -/
def extractorSpec (self : OMRProcessor) (image : Nat → Nat → Nat)
    (row_bubbles : List Bubble) : Prop :=
  let bubble_scores := row_bubbles.map (fill_percentage image)
  (listMax bubble_scores ≤ self.bubble_threshold →
    markOfRow self image row_bubbles = none) ∧
  (self.bubble_threshold < listMax bubble_scores →
    ∃ i : Fin bubble_scores.length,
      markOfRow self image row_bubbles =
        some (String.singleton (Char.ofNat (65 + (i : Nat)))) ∧
      bubble_scores.get i = listMax bubble_scores ∧
      ∀ j : Fin bubble_scores.length, (j : Nat) < (i : Nat) →
        bubble_scores.get j < listMax bubble_scores)

/-- C3. Answer extractor selection and tie-break, for every row whose
bubble count equals the configured (positive) options-per-question. -/
theorem answer_extractor_C3 (self : OMRProcessor) (image : Nat → Nat → Nat)
    (row_bubbles : List Bubble)
    (hrow : row_bubbles.length = self.questions_per_row)
    (hpos : 0 < self.questions_per_row) :
    extractorSpec self image row_bubbles := by
  constructor
  · intro hle
    simp only [markOfRow]
    rw [if_neg (not_lt.mpr hle)]
  · intro hgt
    have hne : row_bubbles.map (fill_percentage image) ≠ [] := by
      intro h0
      have hlen := congrArg List.length h0
      simp only [List.length_map, List.length_nil] at hlen
      omega
    have hmem : listMax (row_bubbles.map (fill_percentage image)) ∈
        row_bubbles.map (fill_percentage image) := listMax_mem hne
    have hlt : (row_bubbles.map (fill_percentage image)).findIdx
        (fun s => s = listMax (row_bubbles.map (fill_percentage image))) <
          (row_bubbles.map (fill_percentage image)).length :=
      List.findIdx_lt_length_of_exists ⟨_, hmem, by simp⟩
    have hspec := (List.findIdx_eq hlt).mp rfl
    refine ⟨⟨_, hlt⟩, ?_, ?_, ?_⟩
    · simp only [markOfRow]
      rw [if_pos hgt]
    · have h1 := hspec.1
      rw [decide_eq_true_eq] at h1
      simpa [List.get_eq_getElem] using h1
    · intro j hj
      have h2 := hspec.2 (j : Nat) hj
      rw [decide_eq_false_iff_not] at h2
      have hle2 : (row_bubbles.map (fill_percentage image)).get j ≤
          listMax (row_bubbles.map (fill_percentage image)) :=
        le_listMax _ _ (List.get_mem _ _ j.isLt)
      have hne2 : (row_bubbles.map (fill_percentage image)).get j ≠
          listMax (row_bubbles.map (fill_percentage image)) := by
        simpa [List.get_eq_getElem] using h2
      exact lt_of_le_of_ne hle2 hne2

/-- Witness for C3: a 5-bubble row on an all-white binary image; every
bubble has fill 1 > 0.65 and the tie at the maximum resolves to bubble A. -/
theorem answer_extractor_C3_witness :
    ([Bubble.mk (Contour.mk 30 0 0 2 2) 0 0 2 2 30 (1, 1),
      Bubble.mk (Contour.mk 30 10 0 2 2) 10 0 2 2 30 (11, 1),
      Bubble.mk (Contour.mk 30 20 0 2 2) 20 0 2 2 30 (21, 1),
      Bubble.mk (Contour.mk 30 30 0 2 2) 30 0 2 2 30 (31, 1),
      Bubble.mk (Contour.mk 30 40 0 2 2) 40 0 2 2 30 (41, 1)].length =
        OMRProcessor.init.questions_per_row ∧
      0 < OMRProcessor.init.questions_per_row) ∧
    extractorSpec OMRProcessor.init (fun _ _ => 255)
      [Bubble.mk (Contour.mk 30 0 0 2 2) 0 0 2 2 30 (1, 1),
       Bubble.mk (Contour.mk 30 10 0 2 2) 10 0 2 2 30 (11, 1),
       Bubble.mk (Contour.mk 30 20 0 2 2) 20 0 2 2 30 (21, 1),
       Bubble.mk (Contour.mk 30 30 0 2 2) 30 0 2 2 30 (31, 1),
       Bubble.mk (Contour.mk 30 40 0 2 2) 40 0 2 2 30 (41, 1)] :=
  ⟨⟨by decide, by decide⟩,
    answer_extractor_C3 OMRProcessor.init (fun _ _ => 255)
      [Bubble.mk (Contour.mk 30 0 0 2 2) 0 0 2 2 30 (1, 1),
       Bubble.mk (Contour.mk 30 10 0 2 2) 10 0 2 2 30 (11, 1),
       Bubble.mk (Contour.mk 30 20 0 2 2) 20 0 2 2 30 (21, 1),
       Bubble.mk (Contour.mk 30 30 0 2 2) 30 0 2 2 30 (31, 1),
       Bubble.mk (Contour.mk 30 40 0 2 2) 40 0 2 2 30 (41, 1)]
      (by decide) (by decide)⟩

/-- Decimal digit string of a natural number, as a clean structural
recursion: the normal form of `Nat.toDigitsCore` at base 10. -/
def decDigits (n : Nat) : List Char :=
  if h : n < 10 then [Nat.digitChar n]
  else decDigits (n / 10) ++ [Nat.digitChar (n % 10)]
decreasing_by exact Nat.div_lt_self (by omega) (by omega)

lemma decDigits_of_lt {n : Nat} (h : n < 10) :
    decDigits n = [Nat.digitChar n] := by
  unfold decDigits
  simp [h]

lemma decDigits_of_ge {n : Nat} (h : ¬ n < 10) :
    decDigits n = decDigits (n / 10) ++ [Nat.digitChar (n % 10)] := by
  conv_lhs => unfold decDigits
  simp [h]

lemma toDigitsCore_eq_decDigits : ∀ (fuel n : Nat) (ds : List Char), n < fuel →
    Nat.toDigitsCore 10 fuel n ds = decDigits n ++ ds := by
  intro fuel
  induction fuel with
  | zero => intro n ds h; omega
  | succ fuel ih =>
    intro n ds h
    simp only [Nat.toDigitsCore]
    by_cases h10 : n / 10 = 0
    · have hlt : n < 10 := by omega
      rw [if_pos h10, decDigits_of_lt hlt, Nat.mod_eq_of_lt hlt]
      rfl
    · rw [if_neg h10]
      have h2 : n / 10 < fuel := by
        have hx : n / 10 < n := Nat.div_lt_self (by omega) (by omega)
        omega
      rw [ih (n / 10) (Nat.digitChar (n % 10) :: ds) h2]
      conv_rhs => rw [decDigits_of_ge (show ¬ n < 10 by omega)]
      simp

lemma toDigits_eq_decDigits (n : Nat) : Nat.toDigits 10 n = decDigits n := by
  rw [Nat.toDigits, toDigitsCore_eq_decDigits (n + 1) n [] (Nat.lt_succ_self n)]
  simp

lemma digitChar_sub_48 : ∀ k, k < 10 → (Nat.digitChar k).toNat - 48 = k := by
  decide

lemma foldl_decode_decDigits (n : Nat) : ∀ a : Nat,
    (decDigits n).foldl (fun acc c => 10 * acc + (c.toNat - 48)) a =
      a * 10 ^ (decDigits n).length + n := by
  induction n using Nat.strong_induction_on with
  | _ n ih =>
    intro a
    by_cases h : n < 10
    · rw [decDigits_of_lt h]
      simp only [List.foldl_cons, List.foldl_nil, List.length_singleton,
        pow_one]
      rw [digitChar_sub_48 n h]
      omega
    · rw [decDigits_of_ge h, List.foldl_append,
        ih (n / 10) (Nat.div_lt_self (by omega) (by omega)) a]
      simp only [List.foldl_cons, List.foldl_nil, List.length_append,
        List.length_singleton]
      rw [digitChar_sub_48 (n % 10) (Nat.mod_lt n (by omega))]
      rw [pow_succ]
      have hdm : 10 * (n / 10) + n % 10 = n := Nat.div_add_mod n 10
      have expand : 10 * (a * 10 ^ (decDigits (n / 10)).length + n / 10) + n % 10 =
          a * (10 ^ (decDigits (n / 10)).length * 10) + (10 * (n / 10) + n % 10) := by
        ring
      rw [expand, hdm]

lemma decDigits_injective : Function.Injective decDigits := by
  intro m n h
  have hm := foldl_decode_decDigits m 0
  have hn := foldl_decode_decDigits n 0
  rw [h] at hm
  simp only [Nat.zero_mul, Nat.zero_add] at hm hn
  exact hm.symm.trans hn

lemma natRepr_injective : Function.Injective Nat.repr := by
  intro m n h
  apply decDigits_injective
  have h2 := congrArg String.data h
  simpa [Nat.repr, List.asString, toDigits_eq_decDigits] using h2

lemma natRepr_ne {m n : Nat} (h : m ≠ n) : Nat.repr m ≠ Nat.repr n :=
  fun hc => h (natRepr_injective hc)

lemma analyzeAux_keys (self : OMRProcessor) (image : Nat → Nat → Nat) :
    ∀ (rows : List (List Bubble)) (n : Nat) (p : String × String),
      p ∈ analyzeAux self image rows n →
      ∃ m, n ≤ m ∧ m < n + rows.length ∧ p.1 = Nat.repr m := by
  intro rows
  induction rows with
  | nil => intro n p h; simp [analyzeAux] at h
  | cons row rest ih =>
    intro n p h
    simp only [analyzeAux] at h
    by_cases hlen : row.length ≠ self.questions_per_row
    · rw [if_pos hlen] at h
      rcases ih (n + 1) p h with ⟨m, h1, h2, h3⟩
      refine ⟨m, by omega, ?_, h3⟩
      simp only [List.length_cons]
      omega
    · rw [if_neg hlen] at h
      cases hmark : markOfRow self image row with
      | some L =>
        rw [hmark] at h
        rcases List.mem_cons.mp h with rfl | h2
        · exact ⟨n, Nat.le_refl n, by simp only [List.length_cons]; omega, rfl⟩
        · rcases ih (n + 1) p h2 with ⟨m, h1, h2, h3⟩
          refine ⟨m, by omega, ?_, h3⟩
          simp only [List.length_cons]
          omega
      | none =>
        rw [hmark] at h
        rcases ih (n + 1) p h with ⟨m, h1, h2, h3⟩
        refine ⟨m, by omega, ?_, h3⟩
        simp only [List.length_cons]
        omega

lemma analyzeAux_append (self : OMRProcessor) (image : Nat → Nat → Nat) :
    ∀ (l1 l2 : List (List Bubble)) (n : Nat),
      analyzeAux self image (l1 ++ l2) n =
        analyzeAux self image l1 n ++ analyzeAux self image l2 (n + l1.length) := by
  intro l1
  induction l1 with
  | nil => intro l2 n; simp [analyzeAux]
  | cons row rest ih =>
    intro l2 n
    have hc : n + 1 + rest.length = n + (row :: rest).length := by
      simp only [List.length_cons]
      omega
    simp only [List.cons_append, analyzeAux, List.append_eq]
    by_cases hlen : row.length ≠ self.questions_per_row
    · rw [if_pos hlen, if_pos hlen, ih l2 (n + 1), hc]
    · rw [if_neg hlen, if_neg hlen]
      cases hmark : markOfRow self image row with
      | some L => rw [ih l2 (n + 1), hc]; simp
      | none => rw [ih l2 (n + 1), hc]

lemma analyzeAux_skip (self : OMRProcessor) (image : Nat → Nat → Nat)
    (row : List Bubble) (rest : List (List Bubble)) (n : Nat)
    (hlen : row.length ≠ self.questions_per_row) :
    analyzeAux self image (row :: rest) n = analyzeAux self image rest (n + 1) := by
  simp only [analyzeAux]
  rw [if_pos hlen]

/-- C6. Degenerate row absorption: a grouped row whose bubble count differs
from the configured options-per-question contributes no entry to the marked
answers, the remaining rows keep being processed with their 1-based
numbering, and the evaluator then grades that question not_attempted. -/
theorem degenerate_row_C6 (self : OMRProcessor) (image : Nat → Nat → Nat)
    (pre post : List (List Bubble)) (degRow : List Bubble)
    (hlen : degRow.length ≠ self.questions_per_row)
    (answer_key : List (String × String)) (a : String)
    (hk : (Nat.repr (pre.length + 1), a) ∈ answer_key)
    (hnd : (answer_key.map Prod.fst).Nodup) :
    analyzeAux self image (pre ++ degRow :: post) 1 =
      analyzeAux self image pre 1 ++
        analyzeAux self image post (pre.length + 2) ∧
    List.lookup (Nat.repr (pre.length + 1))
      (analyzeAux self image (pre ++ degRow :: post) 1) = none ∧
    List.lookup (Nat.repr (pre.length + 1))
      ((self.evaluate_answers (analyzeAux self image (pre ++ degRow :: post) 1)
          answer_key).result) = some "not_attempted" := by
  have hsplit : analyzeAux self image (pre ++ degRow :: post) 1 =
      analyzeAux self image pre 1 ++
        analyzeAux self image post (pre.length + 2) := by
    rw [analyzeAux_append, analyzeAux_skip self image degRow post _ hlen]
    have hc : 1 + pre.length + 1 = pre.length + 2 := by omega
    rw [hc]
  have hnone : List.lookup (Nat.repr (pre.length + 1))
      (analyzeAux self image (pre ++ degRow :: post) 1) = none := by
    rw [hsplit, List.lookup_append]
    have h1 : List.lookup (Nat.repr (pre.length + 1))
        (analyzeAux self image pre 1) = none := by
      rw [List.lookup_eq_none_iff]
      intro p hp
      rcases analyzeAux_keys self image pre 1 p hp with ⟨m, hm1, hm2, hm3⟩
      simp only [bne_iff_ne]
      rw [hm3]
      exact natRepr_ne (by omega)
    have h2 : List.lookup (Nat.repr (pre.length + 1))
        (analyzeAux self image post (pre.length + 2)) = none := by
      rw [List.lookup_eq_none_iff]
      intro p hp
      rcases analyzeAux_keys self image post (pre.length + 2) p hp with
        ⟨m, hm1, hm2, hm3⟩
      simp only [bne_iff_ne]
      rw [hm3]
      exact natRepr_ne (by omega)
    rw [h1, h2]
    rfl
  refine ⟨hsplit, hnone, ?_⟩
  have hres : List.lookup (Nat.repr (pre.length + 1))
      ((self.evaluate_answers (analyzeAux self image (pre ++ degRow :: post) 1)
          answer_key).result) =
      some (statusOf (lookupD (analyzeAux self image (pre ++ degRow :: post) 1)
        (Nat.repr (pre.length + 1))) a) := by
    simp only [OMRProcessor.evaluate_answers]
    exact evalLoop_lookup _ answer_key _ a hnd hk
  rw [hres]
  rw [show lookupD (analyzeAux self image (pre ++ degRow :: post) 1)
      (Nat.repr (pre.length + 1)) = "" by simp [lookupD, hnone]]
  rfl

/-- Witness for C6: a single 1-bubble row (5 expected), key question 1. -/
theorem degenerate_row_C6_witness :
    (([Bubble.mk (Contour.mk 30 0 0 2 2) 0 0 2 2 30 (1, 1)].length ≠
        OMRProcessor.init.questions_per_row) ∧
      (Nat.repr (([] : List (List Bubble)).length + 1), "A") ∈ [("1", "A")] ∧
      (([("1", "A")] : List (String × String)).map Prod.fst).Nodup) ∧
    (analyzeAux OMRProcessor.init (fun _ _ => 0)
        (([] : List (List Bubble)) ++
          [Bubble.mk (Contour.mk 30 0 0 2 2) 0 0 2 2 30 (1, 1)] ::
            ([] : List (List Bubble))) 1 =
      analyzeAux OMRProcessor.init (fun _ _ => 0) ([] : List (List Bubble)) 1 ++
        analyzeAux OMRProcessor.init (fun _ _ => 0) ([] : List (List Bubble))
          (([] : List (List Bubble)).length + 2) ∧
    List.lookup (Nat.repr (([] : List (List Bubble)).length + 1))
      (analyzeAux OMRProcessor.init (fun _ _ => 0)
        (([] : List (List Bubble)) ++
          [Bubble.mk (Contour.mk 30 0 0 2 2) 0 0 2 2 30 (1, 1)] ::
            ([] : List (List Bubble))) 1) = none ∧
    List.lookup (Nat.repr (([] : List (List Bubble)).length + 1))
      ((OMRProcessor.init.evaluate_answers
          (analyzeAux OMRProcessor.init (fun _ _ => 0)
            (([] : List (List Bubble)) ++
              [Bubble.mk (Contour.mk 30 0 0 2 2) 0 0 2 2 30 (1, 1)] ::
                ([] : List (List Bubble))) 1)
          [("1", "A")]).result) = some "not_attempted") :=
  ⟨⟨by decide, by decide, by decide⟩,
    degenerate_row_C6 OMRProcessor.init (fun _ _ => 0) [] []
      [Bubble.mk (Contour.mk 30 0 0 2 2) 0 0 2 2 30 (1, 1)]
      (by decide) [("1", "A")] "A" (by decide) (by decide)⟩

/-- C7. Image-load failure is fatal and atomic: an undecodable image makes
`process_omr_sheet` fail with the load error before any stage output is
produced, and for every decoded image the pipeline is total — detection,
grouping, extraction and evaluation always return a result, so no other
in-core condition makes a single image's processing fail. -/
theorem image_load_C7 (self : OMRProcessor)
    (answer_key : List (String × String)) :
    self.process_omr_sheet none answer_key =
      Except.error "Could not load image" ∧
    ∀ li : LoadedImage, ∃ r : OMRResult,
      self.process_omr_sheet (some li) answer_key = Except.ok r :=
  ⟨rfl, fun li => ⟨_, rfl⟩⟩
